import Mathlib

/-!
Verification of the watchman `Root` coordination core, as declared in
`watchman/root/Root.h`: the client-state-assertion registry, the root
lifecycle flags (cancellation, recrawl bookkeeping), the age-out (GC)
policy and the cookie-based sync-to-now protocol.

The header file fixes the data shapes, the enum of dispositions, the
default member values and the documented contracts of each operation.
The method bodies live outside the provided sources, so the operations
are modelled from the specification's description of their behaviour
(each such definition carries a doc comment saying so).  Machine
integers (`uint64_t` counters, `std::chrono` durations) are modelled as
`Nat`: all quantities involved are non-negative and never approach
overflow in the properties considered here.
-/

namespace Watchman

/-- `#define DEFAULT_GC_AGE (86400 / 2)` from Root.h. -/
def DEFAULT_GC_AGE : Nat := 86400 / 2

/-- `#define DEFAULT_GC_INTERVAL 86400` from Root.h. -/
def DEFAULT_GC_INTERVAL : Nat := 86400

/-- `enum ClientStateDisposition` from Root.h. -/
inductive ClientStateDisposition where
  | PendingEnter
  | Asserted
  | PendingLeave
  | Done
deriving DecidableEq

/-- `class ClientStateAssertion` from Root.h.  The C++ object is handled
through a `shared_ptr`; the field `id` stands for the pointer identity
used by `isFront` and `removeAssertion` to locate a particular
assertion.  `enterPayload` (a `json_ref`) is abstracted to a `Nat`
token: the registry only stores and forwards it. -/
structure ClientStateAssertion where
  id : Nat
  name : String
  disposition : ClientStateDisposition
  enterPayload : Nat
deriving DecidableEq

/-- The constructor `ClientStateAssertion(root, name)` from Root.h
initialises `disposition` to `PendingEnter` (default member
initialiser, Root.h line 45). -/
def ClientStateAssertion.mkFresh (i : Nat) (name : String) (payload : Nat) :
    ClientStateAssertion :=
  { id := i, name := name, disposition := .PendingEnter, enterPayload := payload }

/-- `class ClientStateAssertions` from Root.h: `states_` maps a state
name to a queue of assertions (`unordered_map<w_string, deque<...>>`),
modelled as an association list whose queues are `List`s. -/
structure ClientStateAssertions where
  states_ : List (String × List ClientStateAssertion)
deriving DecidableEq

/-- Lookup of a name's queue in the `states_` map (`unordered_map::find`). -/
def lookupQ (r : List (String × List ClientStateAssertion)) (name : String) :
    Option (List ClientStateAssertion) :=
  match r with
  | [] => none
  | p :: rest => if p.1 = name then some p.2 else lookupQ rest name

/-- Replace the queue stored under `name` (in-place mutation of the
mapped value of `unordered_map`). -/
def setQ (r : List (String × List ClientStateAssertion)) (name : String)
    (q : List ClientStateAssertion) : List (String × List ClientStateAssertion) :=
  match r with
  | [] => []
  | p :: rest =>
    if p.1 = name then (p.1, q) :: setQ rest name q else p :: setQ rest name q

/-- Remove the entry stored under `name` (`unordered_map::erase`). -/
def eraseQ (r : List (String × List ClientStateAssertion)) (name : String) :
    List (String × List ClientStateAssertion) :=
  match r with
  | [] => []
  | p :: rest => if p.1 = name then eraseQ rest name else p :: eraseQ rest name

/-- A disposition that blocks a new assertion for the same name:
`Asserted`, `PendingEnter` or `PendingLeave` (everything but `Done`). -/
def conflicting (e : ClientStateAssertion) : Bool :=
  decide (e.disposition = .Asserted ∨ e.disposition = .PendingEnter ∨
    e.disposition = .PendingLeave)

/-- Modelled from the spec: `ClientStateAssertions::queueAssertion`
(body not in the provided sources; Root.h documents it as "Add
assertion to the queue of assertions for assertion->name.  Throws if
the named state is already asserted or if there is a pending assertion
for that state").  Fails, reporting a conflict error and leaving the
registry unmodified, when the name already has an `Asserted` holder or
another entry in `PendingEnter`/`PendingLeave`; otherwise appends the
assertion at the tail of that name's queue. -/
def queueAssertion (s : ClientStateAssertions) (a : ClientStateAssertion) :
    Except String ClientStateAssertions :=
  match lookupQ s.states_ a.name with
  | some q =>
    if q.any conflicting then
      .error ("state " ++ a.name ++ " is already asserted or pending")
    else
      .ok ⟨setQ s.states_ a.name (q ++ [a])⟩
  | none => .ok ⟨s.states_ ++ [(a.name, [a])]⟩

/-- Remove the first queue element whose pointer identity matches `i`
(the erase loop inside `removeAssertion`). -/
def removeFirstById (q : List ClientStateAssertion) (i : Nat) :
    List ClientStateAssertion :=
  match q with
  | [] => []
  | e :: rest => if e.id = i then rest else e :: removeFirstById rest i

/-- Modelled from the spec: `ClientStateAssertions::removeAssertion`
(body not in the provided sources; Root.h documents it as "remove
assertion from the queue of assertions for assertion->name.  If no more
assertions remain in that named queue then the queue is removed.  If
the removal of an assertion causes the new front of that queue to
occupied by an assertion with Asserted disposition, generates a
broadcast of its enterPayload").  Returns the updated registry, the
payloads broadcast over the publish channel, and whether an assertion
was removed. -/
def removeAssertion (s : ClientStateAssertions) (a : ClientStateAssertion) :
    ClientStateAssertions × List Nat × Bool :=
  match lookupQ s.states_ a.name with
  | none => (s, [], false)
  | some q =>
    if q.any (fun e => decide (e.id = a.id)) then
      match removeFirstById q a.id with
      | [] => (⟨eraseQ s.states_ a.name⟩, [], true)
      | front :: rest =>
        (⟨setQ s.states_ a.name (front :: rest)⟩,
         if front.disposition = .Asserted then [front.enterPayload] else [],
         true)
    else (s, [], false)

/-- Modelled from the spec: `ClientStateAssertions::isFront` (body not
in the provided sources; Root.h documents it as "Returns true if
`assertion` is the front instance in the queue of assertions that match
assertion->name"). -/
def isFront (s : ClientStateAssertions) (a : ClientStateAssertion) : Bool :=
  match lookupQ s.states_ a.name with
  | some (front :: _) => decide (front.id = a.id)
  | _ => false

/-- Modelled from the spec: `ClientStateAssertions::isStateAsserted`
(body not in the provided sources; the spec states it is "true iff the
name's queue is non-empty and its head has disposition Asserted"). -/
def isStateAsserted (s : ClientStateAssertions) (name : String) : Bool :=
  match lookupQ s.states_ name with
  | some (front :: _) => decide (front.disposition = .Asserted)
  | _ => false

/-- Modelled from the spec: the external promotion step of the
disposition machine `PendingEnter → Asserted` of section 4.4 — a
waiting request becomes the active holder only once it occupies the
front of its name's queue. -/
def assertFront (s : ClientStateAssertions) (name : String) :
    ClientStateAssertions :=
  match lookupQ s.states_ name with
  | some (front :: rest) =>
    if front.disposition = .PendingEnter then
      ⟨setQ s.states_ name ({ front with disposition := .Asserted } :: rest)⟩
    else s
  | _ => s

/-- Modelled from the spec: the external transition
`Asserted → PendingLeave` of the disposition machine of section 4.4
(the holder announces it is leaving before being removed). -/
def markPendingLeave (s : ClientStateAssertions) (name : String) (i : Nat) :
    ClientStateAssertions :=
  match lookupQ s.states_ name with
  | some q =>
    ⟨setQ s.states_ name (q.map fun e =>
      if e.id = i ∧ e.disposition = .Asserted then
        { e with disposition := .PendingLeave }
      else e)⟩
  | none => s

/-- One operation on the client-state registry: queueing a freshly
constructed assertion (constructor disposition `PendingEnter`),
removing an assertion, and the two external disposition transitions of
the section 4.4 state machine. -/
inductive StateOp where
  | queue (i : Nat) (name : String) (payload : Nat)
  | removeA (i : Nat) (name : String)
  | assertA (name : String)
  | leaveA (i : Nat) (name : String)

/-- Apply one registry operation.  A failing `queueAssertion` leaves
the registry unchanged (the C++ method throws before mutating). -/
def applyStateOp (s : ClientStateAssertions) (op : StateOp) :
    ClientStateAssertions :=
  match op with
  | .queue i name payload =>
    match queueAssertion s (ClientStateAssertion.mkFresh i name payload) with
    | .ok s2 => s2
    | .error _ => s
  | .removeA i name =>
    (removeAssertion s { id := i, name := name, disposition := .Done,
                         enterPayload := 0 }).1
  | .assertA name => assertFront s name
  | .leaveA i name => markPendingLeave s name i

/-- Run a sequence of registry operations from the empty registry. -/
def runStateOps (ops : List StateOp) : ClientStateAssertions :=
  ops.foldl applyStateOp ⟨[]⟩

/-- `struct RecrawlInfo` from Root.h, with its default member values:
`recrawlCount = 0`, `shouldRecrawl = true` (Root.h lines 152-162).
`std::chrono::steady_clock::time_point` timestamps are modelled as
`Nat`, value-initialised to `0`; the warning `w_string` starts empty. -/
structure RecrawlInfo where
  recrawlCount : Nat := 0
  shouldRecrawl : Bool := true
  warning : String := ""
  crawlStart : Nat := 0
  crawlFinish : Nat := 0
deriving DecidableEq

/-- The state of one `Root` relevant to the claims: the GC
configuration (defaulted from `DEFAULT_GC_INTERVAL` / `DEFAULT_GC_AGE`,
Root.h lines 142-146), the recrawl record, the atomic flags
`done_initial{false}` and `cancelled{false}` (Root.h lines 181, 186),
the time of the last age-out pass and a count of `performAgeOut`
invocations (instrumentation used to state the GC-frequency claims). -/
structure RootState where
  gc_interval : Nat := DEFAULT_GC_INTERVAL
  gc_age : Nat := DEFAULT_GC_AGE
  recrawlInfo : RecrawlInfo := {}
  done_initial : Bool := false
  cancelled : Bool := false
  lastAgeOutTime : Nat := 0
  ageOutCount : Nat := 0
deriving DecidableEq

/-- A freshly constructed `Root`: every field at its declared default. -/
def initialRoot : RootState := {}

/-- Modelled from the spec: `Root::cancel` (body not in the provided
sources; Root.h documents: "Returns true if this request caused the
root cancellation, false if it was already in the process of being
cancelled", and the `cancelled` flag as "Set if cancel() has been
called.  Once true, is never set to false").  The atomic
compare-and-set is modelled by the test-then-set on the state. -/
def RootState.cancel (s : RootState) : Bool × RootState :=
  if s.cancelled then (false, s) else (true, { s with cancelled := true })

/-- Run `n` consecutive `cancel()` calls, collecting each return value. -/
def runCancels : Nat → RootState → List Bool × RootState
  | 0, s => ([], s)
  | n + 1, s =>
    let r := s.cancel
    let rest := runCancels n r.2
    (r.1 :: rest.1, rest.2)

/-- Modelled from the spec: `Root::performAgeOut` (body not in the
provided sources) instructs the view to prune deleted entries older
than `gc_age` and records the time of this GC pass; the pass counter is
instrumentation for stating how often it runs. -/
def performAgeOut (s : RootState) (now : Nat) : RootState :=
  { s with lastAgeOutTime := now, ageOutCount := s.ageOutCount + 1 }

/-- Modelled from the spec: `Root::considerAgeOut` (body not in the
provided sources; the spec: "checks elapsed time since the last GC pass
against a configured minimum interval; if the interval is zero,
automatic GC is disabled entirely", and Root.h on `gc_interval`: "Don't
GC more often than this.  If zero, then never age out"). -/
def considerAgeOut (s : RootState) (now : Nat) : RootState :=
  if s.gc_interval = 0 then s
  else if now < s.lastAgeOutTime + s.gc_interval then s
  else performAgeOut s now

/-- Result of a `syncToNow` call (`CookieSync::SyncResult` abstracted
to success or a timeout failure). -/
inductive SyncResult where
  | ok
  | timeoutError
deriving DecidableEq

/-- Modelled from the spec: `Root::syncToNow` (body not in the provided
sources; the spec's protocol steps 4-5).  `markerObservedAt` is the
time at which the event pipeline observes this call's cookie marker
(`none` for an unresponsive watch).  The call resolves successfully if
the marker is observed within the caller-supplied timeout, and resolves
with a timeout failure otherwise; in either case the root state is
returned unchanged. -/
def syncToNow (s : RootState) (markerObservedAt : Option Nat) (timeout : Nat) :
    SyncResult × RootState :=
  match markerObservedAt with
  | some t => if t ≤ timeout then (.ok, s) else (.timeoutError, s)
  | none => (.timeoutError, s)

/-- Modelled from the spec: `Root::scheduleRecrawl` (body not in the
provided sources; the spec: "sets the should-recrawl flag, increments
the recrawl counter, records the reason as a diagnostic warning.
Idempotent if already scheduled; does not itself perform the crawl").
When a recrawl is already scheduled the call is a no-op; otherwise it
sets the flag, increments the counter and records the reason. -/
def scheduleRecrawl (s : RootState) (why : String) : RootState :=
  if s.recrawlInfo.shouldRecrawl then s
  else
    { s with recrawlInfo :=
      { s.recrawlInfo with
        shouldRecrawl := true,
        recrawlCount := s.recrawlInfo.recrawlCount + 1,
        warning := why } }

/-- Modelled from the spec: `Root::recrawlTriggered` (body not in the
provided sources; the spec: "marks the start of an actual recrawl pass
(records crawl-start time, clears the prior warning context); called by
the crawl-driving thread only").  The pending request is consumed
(`shouldRecrawl` cleared), the prior warning context is replaced by the
reason of the pass now starting, and `done_initial` is cleared until
the crawl completes (Root.h line 175). -/
def recrawlTriggered (s : RootState) (why : String) (now : Nat) : RootState :=
  { s with
    done_initial := false,
    recrawlInfo :=
      { s.recrawlInfo with
        shouldRecrawl := false,
        crawlStart := now,
        warning := why } }

/-- One lifecycle operation on a `Root`, used to state flag- and
counter-monotonicity across every modelled operation. -/
inductive RootOp where
  | cancelOp
  | scheduleRecrawlOp (why : String)
  | recrawlTriggeredOp (why : String) (now : Nat)
  | considerAgeOutOp (now : Nat)
  | syncToNowOp (markerObservedAt : Option Nat) (timeout : Nat)

/-- Apply one lifecycle operation to the root state. -/
def applyRootOp (s : RootState) (op : RootOp) : RootState :=
  match op with
  | .cancelOp => s.cancel.2
  | .scheduleRecrawlOp why => scheduleRecrawl s why
  | .recrawlTriggeredOp why now => recrawlTriggered s why now
  | .considerAgeOutOp now => considerAgeOut s now
  | .syncToNowOp obs timeout => (syncToNow s obs timeout).2

/-- Claim C9: the default garbage-collection parameters of a `Root` are
a half-day age and a one-day interval: `gc_age` defaults to 43200
seconds (86400 / 2) and `gc_interval` defaults to 86400 seconds, so the
default age-out prunes entries deleted between 12 and 36 hours ago. -/
theorem c9_gc_defaults :
    DEFAULT_GC_AGE = 43200 ∧ DEFAULT_GC_AGE = 86400 / 2 ∧
    DEFAULT_GC_INTERVAL = 86400 ∧
    initialRoot.gc_age = DEFAULT_GC_AGE ∧
    initialRoot.gc_interval = DEFAULT_GC_INTERVAL ∧
    DEFAULT_GC_AGE = 12 * 3600 ∧
    DEFAULT_GC_AGE + DEFAULT_GC_INTERVAL = 36 * 3600 := by
  decide

/-- Claim C10: a newly constructed `Root` starts with
`recrawlCount = 0` and `shouldRecrawl = true` (the default member
initialisers of `RecrawlInfo` in Root.h), so the initial crawl is
requested from construction through the same should-recrawl flag that
`scheduleRecrawl` sets for later recrawls — which always leaves the
flag set. -/
theorem c10_initial_recrawl_state :
    initialRoot.recrawlInfo.recrawlCount = 0 ∧
    initialRoot.recrawlInfo.shouldRecrawl = true ∧
    ∀ (s : RootState) (why : String),
      (scheduleRecrawl s why).recrawlInfo.shouldRecrawl = true := by
  refine ⟨rfl, rfl, fun s why => ?_⟩
  unfold scheduleRecrawl
  by_cases h : s.recrawlInfo.shouldRecrawl <;> simp [h]

/-- Once cancelled, `runCancels` returns `false` for every further call
and leaves the state untouched. -/
theorem runCancels_of_cancelled (n : Nat) (s : RootState)
    (h : s.cancelled = true) : runCancels n s = (List.replicate n false, s) := by
  induction n with
  | zero => rfl
  | succ n ih =>
    simp only [runCancels, RootState.cancel, h, if_true, ih,
      List.replicate_succ]

/-- Claim C4: starting from the initial (not cancelled) root, a
sequence of `cancel()` calls returns `true` exactly on the first call
and `false` on every later one; the `cancelled` flag ends up `true`,
and no modelled operation ever resets it to `false`. -/
theorem c4_cancel_exactly_once (n : Nat) :
    (runCancels (n + 1) initialRoot).1 = true :: List.replicate n false ∧
    (runCancels (n + 1) initialRoot).2.cancelled = true ∧
    ∀ (op : RootOp) (s : RootState),
      s.cancelled = true → (applyRootOp s op).cancelled = true := by
  have hstep : initialRoot.cancel =
      (true, { initialRoot with cancelled := true }) := rfl
  refine ⟨?_, ?_, ?_⟩
  · simp only [runCancels, hstep,
      runCancels_of_cancelled n { initialRoot with cancelled := true } rfl]
  · simp only [runCancels, hstep,
      runCancels_of_cancelled n { initialRoot with cancelled := true } rfl]
  · intro op s h
    cases op with
    | cancelOp =>
      simp only [applyRootOp, RootState.cancel, h, if_true]
    | scheduleRecrawlOp why =>
      simp only [applyRootOp, scheduleRecrawl]
      by_cases hs : s.recrawlInfo.shouldRecrawl <;> simp [hs, h]
    | recrawlTriggeredOp why now =>
      simpa only [applyRootOp, recrawlTriggered] using h
    | considerAgeOutOp now =>
      simp only [applyRootOp, considerAgeOut, performAgeOut]
      by_cases h0 : s.gc_interval = 0 <;>
        by_cases h1 : now < s.lastAgeOutTime + s.gc_interval <;>
        simp [h0, h1, h]
    | syncToNowOp obs timeout =>
      cases obs with
      | none => simpa only [applyRootOp, syncToNow] using h
      | some t =>
        simp only [applyRootOp, syncToNow]
        by_cases ht : t ≤ timeout <;> simp [ht, h]

/-- Claim C4 witness at concrete inputs. -/
theorem c4_cancel_exactly_once_witness :
    (runCancels 3 Watchman.initialRoot).1 = true :: List.replicate 2 false ∧
    (applyRootOp { Watchman.initialRoot with cancelled := true }
      (RootOp.considerAgeOutOp 99999)).cancelled = true := by
  refine ⟨(c4_cancel_exactly_once 2).1, ?_⟩
  exact (c4_cancel_exactly_once 0).2.2 (RootOp.considerAgeOutOp 99999)
    { Watchman.initialRoot with cancelled := true } rfl

/-- Claim C5: `considerAgeOut` never runs a GC pass when the configured
interval is zero; it is a no-op while less than `gc_interval` has
elapsed since the last pass; whenever it does invoke `performAgeOut`
the full interval had elapsed and the pass time is re-recorded, so a
second call within `gc_interval` of a pass that fired is again a no-op
— at most one `performAgeOut` per interval. -/
theorem c5_considerAgeOut_interval :
    (∀ (s : RootState) (now : Nat), s.gc_interval = 0 →
      considerAgeOut s now = s) ∧
    (∀ (s : RootState) (now : Nat), now < s.lastAgeOutTime + s.gc_interval →
      considerAgeOut s now = s) ∧
    (∀ (s : RootState) (now : Nat),
      (considerAgeOut s now).ageOutCount ≠ s.ageOutCount →
      s.lastAgeOutTime + s.gc_interval ≤ now ∧
      (considerAgeOut s now).lastAgeOutTime = now ∧
      (considerAgeOut s now).ageOutCount = s.ageOutCount + 1) ∧
    (∀ (s : RootState) (now1 now2 : Nat), 0 < s.gc_interval →
      s.lastAgeOutTime + s.gc_interval ≤ now1 →
      now2 < now1 + s.gc_interval →
      considerAgeOut (considerAgeOut s now1) now2 = considerAgeOut s now1) := by
  refine ⟨?_, ?_, ?_, ?_⟩
  · intro s now h0
    simp [considerAgeOut, h0]
  · intro s now hlt
    simp [considerAgeOut, hlt]
  · intro s now hne
    by_cases h0 : s.gc_interval = 0
    · simp [considerAgeOut, h0] at hne
    · by_cases h1 : now < s.lastAgeOutTime + s.gc_interval
      · simp [considerAgeOut, h0, h1] at hne
      · refine ⟨Nat.le_of_not_lt h1, ?_, ?_⟩ <;>
          simp [considerAgeOut, performAgeOut, h0, h1]
  · intro s now1 now2 hpos hfire hwithin
    have h0 : ¬ s.gc_interval = 0 := Nat.pos_iff_ne_zero.mp hpos
    have h1 : ¬ now1 < s.lastAgeOutTime + s.gc_interval :=
      Nat.not_lt.mpr hfire
    have hfirst : considerAgeOut s now1 = performAgeOut s now1 := by
      simp [considerAgeOut, h0, h1]
    rw [hfirst]
    simp [considerAgeOut, performAgeOut, h0, hwithin]

/-- Claim C5 witness at concrete inputs. -/
theorem c5_considerAgeOut_interval_witness :
    considerAgeOut { Watchman.initialRoot with gc_interval := 0 } 500000 =
      { Watchman.initialRoot with gc_interval := 0 } ∧
    considerAgeOut
      (considerAgeOut Watchman.initialRoot 86400) 100000 =
      considerAgeOut Watchman.initialRoot 86400 := by
  refine ⟨?_, ?_⟩
  · exact c5_considerAgeOut_interval.1
      { Watchman.initialRoot with gc_interval := 0 } 500000 rfl
  · exact c5_considerAgeOut_interval.2.2.2 Watchman.initialRoot 86400 100000
      (by decide) (by decide) (by decide)

/-- Claim C6: `syncToNow` resolves with a timeout failure whenever the
marker is not observed within the caller-supplied timeout; in
particular `syncToNow 0` against an unresponsive watch (marker never
observed) returns a timeout failure; in every case the root state is
returned unchanged (no partial mutation) and the `cancelled` flag is
untouched — a timeout does not cancel or fail the root. -/
theorem c6_syncToNow_timeout :
    (∀ (s : RootState) (obs : Option Nat) (timeout : Nat),
      (∀ t, obs = some t → timeout < t) →
      syncToNow s obs timeout = (.timeoutError, s)) ∧
    (∀ (s : RootState), syncToNow s none 0 = (.timeoutError, s)) ∧
    (∀ (s : RootState) (obs : Option Nat) (timeout : Nat),
      (syncToNow s obs timeout).2 = s) ∧
    (∀ (s : RootState) (obs : Option Nat) (timeout : Nat),
      (syncToNow s obs timeout).2.cancelled = s.cancelled) := by
  have hstate : ∀ (s : RootState) (obs : Option Nat) (timeout : Nat),
      (syncToNow s obs timeout).2 = s := by
    intro s obs timeout
    cases obs with
    | none => rfl
    | some t =>
      simp only [syncToNow]
      by_cases ht : t ≤ timeout <;> simp [ht]
  refine ⟨?_, fun s => rfl, hstate, fun s obs timeout => by rw [hstate]⟩
  intro s obs timeout hnot
  cases obs with
  | none => rfl
  | some t =>
    have := hnot t rfl
    simp only [syncToNow]
    rw [if_neg (Nat.not_le.mpr this)]

/-- Claim C6 witness at concrete inputs. -/
theorem c6_syncToNow_timeout_witness :
    syncToNow Watchman.initialRoot none 0 =
      (SyncResult.timeoutError, Watchman.initialRoot) ∧
    syncToNow Watchman.initialRoot (some 10) 3 =
      (SyncResult.timeoutError, Watchman.initialRoot) := by
  refine ⟨c6_syncToNow_timeout.2.1 Watchman.initialRoot, ?_⟩
  exact c6_syncToNow_timeout.1 Watchman.initialRoot (some 10) 3
    (by intro t ht; cases ht; decide)

/-- Claim C7: when no recrawl is pending, `scheduleRecrawl` sets the
should-recrawl flag, increments the recrawl counter and records the
reason; it is idempotent (a second call changes nothing, and a call
with a recrawl already scheduled is a no-op); a `scheduleRecrawl`
followed by `recrawlTriggered` with the same reason increments the
counter by exactly one in total and leaves that reason recorded; and
the recrawl counter is monotonically non-decreasing under every
modelled operation. -/
theorem c7_scheduleRecrawl_spec :
    (∀ (s : RootState) (why : String), s.recrawlInfo.shouldRecrawl = false →
      (scheduleRecrawl s why).recrawlInfo.shouldRecrawl = true ∧
      (scheduleRecrawl s why).recrawlInfo.recrawlCount =
        s.recrawlInfo.recrawlCount + 1 ∧
      (scheduleRecrawl s why).recrawlInfo.warning = why) ∧
    (∀ (s : RootState) (why : String),
      scheduleRecrawl (scheduleRecrawl s why) why = scheduleRecrawl s why) ∧
    (∀ (s : RootState) (why : String) (now : Nat),
      s.recrawlInfo.shouldRecrawl = false →
      (recrawlTriggered (scheduleRecrawl s why) why now).recrawlInfo.recrawlCount
        = s.recrawlInfo.recrawlCount + 1 ∧
      (recrawlTriggered (scheduleRecrawl s why) why now).recrawlInfo.warning
        = why) ∧
    (∀ (s : RootState) (op : RootOp),
      s.recrawlInfo.recrawlCount ≤ (applyRootOp s op).recrawlInfo.recrawlCount) := by
  have hset : ∀ (s : RootState) (why : String),
      s.recrawlInfo.shouldRecrawl = false →
      scheduleRecrawl s why =
        { s with recrawlInfo :=
          { s.recrawlInfo with
            shouldRecrawl := true,
            recrawlCount := s.recrawlInfo.recrawlCount + 1,
            warning := why } } := by
    intro s why h
    simp [scheduleRecrawl, h]
  refine ⟨?_, ?_, ?_, ?_⟩
  · intro s why h
    rw [hset s why h]
    exact ⟨rfl, rfl, rfl⟩
  · intro s why
    by_cases h : s.recrawlInfo.shouldRecrawl
    · simp [scheduleRecrawl, h]
    · rw [hset s why (Bool.not_eq_true _ ▸ h)]
      simp [scheduleRecrawl]
  · intro s why now h
    rw [hset s why h]
    simp [recrawlTriggered]
  · intro s op
    cases op with
    | cancelOp =>
      simp only [applyRootOp, RootState.cancel]
      by_cases h : s.cancelled <;> simp [h]
    | scheduleRecrawlOp why =>
      simp only [applyRootOp, scheduleRecrawl]
      by_cases h : s.recrawlInfo.shouldRecrawl <;> simp [h]
    | recrawlTriggeredOp why now =>
      simp [applyRootOp, recrawlTriggered]
    | considerAgeOutOp now =>
      simp only [applyRootOp, considerAgeOut, performAgeOut]
      by_cases h0 : s.gc_interval = 0 <;>
        by_cases h1 : now < s.lastAgeOutTime + s.gc_interval <;>
        simp [h0, h1]
    | syncToNowOp obs timeout =>
      cases obs with
      | none => simp [applyRootOp, syncToNow]
      | some t =>
        simp only [applyRootOp, syncToNow]
        by_cases ht : t ≤ timeout <;> simp [ht]

/-- Claim C7 witness at concrete inputs: from a settled root (no
recrawl pending), the schedule/trigger pair adds exactly one to the
counter and records the reason. -/
theorem c7_scheduleRecrawl_spec_witness :
    (recrawlTriggered
      (scheduleRecrawl
        { Watchman.initialRoot with recrawlInfo :=
          { recrawlCount := 4, shouldRecrawl := false, warning := "",
            crawlStart := 0, crawlFinish := 0 } } "fs error")
      "fs error" 77).recrawlInfo.recrawlCount = 4 + 1 ∧
    (recrawlTriggered
      (scheduleRecrawl
        { Watchman.initialRoot with recrawlInfo :=
          { recrawlCount := 4, shouldRecrawl := false, warning := "",
            crawlStart := 0, crawlFinish := 0 } } "fs error")
      "fs error" 77).recrawlInfo.warning = "fs error" :=
  c7_scheduleRecrawl_spec.2.2.1
    { Watchman.initialRoot with recrawlInfo :=
      { recrawlCount := 4, shouldRecrawl := false, warning := "",
        crawlStart := 0, crawlFinish := 0 } } "fs error" 77 rfl

/-- Concrete sample assertions used by the witnesses below. -/
def sampleAsserted : ClientStateAssertion :=
  { id := 2, name := "s", disposition := .Asserted, enterPayload := 9 }

/-- A second concrete sample assertion, queued ahead of
`sampleAsserted` and about to leave. -/
def sampleLeaving : ClientStateAssertion :=
  { id := 1, name := "s", disposition := .PendingLeave, enterPayload := 5 }

/-- Unfolding lemma for `lookupQ` at a matching head. -/
theorem lookupQ_cons_pos {k : String} {v : List ClientStateAssertion}
    {rest : List (String × List ClientStateAssertion)} {name : String}
    (h : k = name) : lookupQ ((k, v) :: rest) name = some v := by
  simp [lookupQ, h]

/-- Unfolding lemma for `lookupQ` at a non-matching head. -/
theorem lookupQ_cons_neg {k : String} {v : List ClientStateAssertion}
    {rest : List (String × List ClientStateAssertion)} {name : String}
    (h : ¬ k = name) : lookupQ ((k, v) :: rest) name = lookupQ rest name := by
  simp [lookupQ, h]

/-- Unfolding lemma for `setQ` at a matching head. -/
theorem setQ_cons_pos {k : String} {v q : List ClientStateAssertion}
    {rest : List (String × List ClientStateAssertion)} {name : String}
    (h : k = name) : setQ ((k, v) :: rest) name q = (k, q) :: setQ rest name q := by
  simp [setQ, h]

/-- Unfolding lemma for `setQ` at a non-matching head. -/
theorem setQ_cons_neg {k : String} {v q : List ClientStateAssertion}
    {rest : List (String × List ClientStateAssertion)} {name : String}
    (h : ¬ k = name) : setQ ((k, v) :: rest) name q = (k, v) :: setQ rest name q := by
  simp [setQ, h]

/-- Unfolding lemma for `eraseQ` at a matching head. -/
theorem eraseQ_cons_pos {k : String} {v : List ClientStateAssertion}
    {rest : List (String × List ClientStateAssertion)} {name : String}
    (h : k = name) : eraseQ ((k, v) :: rest) name = eraseQ rest name := by
  simp [eraseQ, h]

/-- Unfolding lemma for `eraseQ` at a non-matching head. -/
theorem eraseQ_cons_neg {k : String} {v : List ClientStateAssertion}
    {rest : List (String × List ClientStateAssertion)} {name : String}
    (h : ¬ k = name) : eraseQ ((k, v) :: rest) name = (k, v) :: eraseQ rest name := by
  simp [eraseQ, h]

/-- A successful `lookupQ` returns a pair actually stored in the map. -/
theorem lookupQ_mem {r : List (String × List ClientStateAssertion)}
    {name : String} {q : List ClientStateAssertion}
    (h : lookupQ r name = some q) : (name, q) ∈ r := by
  induction r with
  | nil => cases h
  | cons p rest ih =>
    obtain ⟨k, v⟩ := p
    by_cases hp : k = name
    · rw [lookupQ_cons_pos hp] at h
      cases h
      subst hp
      exact List.mem_cons_self _ _
    · rw [lookupQ_cons_neg hp] at h
      exact List.mem_cons_of_mem _ (ih h)

/-- Every pair in `setQ r name q` is either an untouched pair of `r` or
the pair `(name, q)`. -/
theorem mem_setQ {r : List (String × List ClientStateAssertion)}
    {name : String} {q : List ClientStateAssertion}
    {p : String × List ClientStateAssertion}
    (h : p ∈ setQ r name q) : p ∈ r ∨ p = (name, q) := by
  induction r with
  | nil => cases h
  | cons e rest ih =>
    obtain ⟨k, v⟩ := e
    by_cases he : k = name
    · rw [setQ_cons_pos he] at h
      rcases List.mem_cons.mp h with h1 | h1
      · exact Or.inr (by rw [h1, he])
      · rcases ih h1 with h2 | h2
        · exact Or.inl (List.mem_cons_of_mem _ h2)
        · exact Or.inr h2
    · rw [setQ_cons_neg he] at h
      rcases List.mem_cons.mp h with h1 | h1
      · exact Or.inl (h1 ▸ List.mem_cons_self _ _)
      · rcases ih h1 with h2 | h2
        · exact Or.inl (List.mem_cons_of_mem _ h2)
        · exact Or.inr h2

/-- `eraseQ` only removes pairs. -/
theorem mem_eraseQ {r : List (String × List ClientStateAssertion)}
    {name : String} {p : String × List ClientStateAssertion}
    (h : p ∈ eraseQ r name) : p ∈ r := by
  induction r with
  | nil => cases h
  | cons e rest ih =>
    obtain ⟨k, v⟩ := e
    by_cases he : k = name
    · rw [eraseQ_cons_pos he] at h
      exact List.mem_cons_of_mem _ (ih h)
    · rw [eraseQ_cons_neg he] at h
      rcases List.mem_cons.mp h with h1 | h1
      · exact h1 ▸ List.mem_cons_self _ _
      · exact List.mem_cons_of_mem _ (ih h1)

/-- After `setQ` on a name that is present, looking that name up yields
the new queue. -/
theorem lookupQ_setQ_self {r : List (String × List ClientStateAssertion)}
    {name : String} {q0 : List ClientStateAssertion}
    (h : lookupQ r name = some q0) (q : List ClientStateAssertion) :
    lookupQ (setQ r name q) name = some q := by
  induction r with
  | nil => cases h
  | cons e rest ih =>
    by_cases he : e.1 = name
    · simp [setQ, lookupQ, he]
    · simp only [lookupQ, he, if_false] at h
      simp [setQ, lookupQ, he, ih h]

/-- After `eraseQ`, the erased name has no entry. -/
theorem lookupQ_eraseQ_self (r : List (String × List ClientStateAssertion))
    (name : String) : lookupQ (eraseQ r name) name = none := by
  induction r with
  | nil => rfl
  | cons e rest ih =>
    by_cases he : e.1 = name
    · simp [eraseQ, he, ih]
    · simp [eraseQ, lookupQ, he, ih]

/-- Appending a fresh entry for an absent name makes it found. -/
theorem lookupQ_append_of_none {r : List (String × List ClientStateAssertion)}
    {name : String} (h : lookupQ r name = none)
    (q : List ClientStateAssertion) :
    lookupQ (r ++ [(name, q)]) name = some q := by
  induction r with
  | nil => simp [lookupQ]
  | cons e rest ih =>
    by_cases he : e.1 = name
    · simp [lookupQ, he] at h
    · simp only [lookupQ, he, if_false] at h
      simp [lookupQ, he, ih h]

/-- Removal by identity only drops elements. -/
theorem mem_removeFirstById {q : List ClientStateAssertion} {i : Nat}
    {x : ClientStateAssertion} (h : x ∈ removeFirstById q i) : x ∈ q := by
  induction q with
  | nil => cases h
  | cons e rest ih =>
    by_cases he : e.id = i
    · simp only [removeFirstById, he, if_true] at h
      exact List.mem_cons_of_mem _ h
    · simp only [removeFirstById, he, if_false] at h
      rcases List.mem_cons.mp h with h1 | h1
      · exact h1 ▸ List.mem_cons_self _ _
      · exact List.mem_cons_of_mem _ (ih h1)

/-- The tail of the queue after a removal is drawn from the tail of the
original queue. -/
theorem tail_removeFirstById {q : List ClientStateAssertion} {i : Nat}
    {x : ClientStateAssertion} (h : x ∈ (removeFirstById q i).tail) :
    x ∈ q.tail := by
  cases q with
  | nil => cases h
  | cons e rest =>
    by_cases he : e.id = i
    · simp only [removeFirstById, he, if_true] at h
      exact List.mem_of_mem_tail h
    · simp only [removeFirstById, he, if_false, List.tail_cons] at h
      exact mem_removeFirstById h

/-- Claim C2: `queueAssertion(a)` fails, with a conflict error and no
registry mutation, exactly when `a`'s name already has an entry with
disposition `Asserted`, `PendingEnter` or `PendingLeave`; when it
succeeds, the new registry holds `a` appended at the tail of that
name's queue. -/
theorem c2_queueAssertion_conflict (s : ClientStateAssertions)
    (a : ClientStateAssertion) :
    ((∃ e, queueAssertion s a = .error e) ↔
      ∃ q, lookupQ s.states_ a.name = some q ∧
        ∃ b ∈ q, b.disposition = .Asserted ∨ b.disposition = .PendingEnter ∨
          b.disposition = .PendingLeave) ∧
    ∀ s2, queueAssertion s a = .ok s2 →
      lookupQ s2.states_ a.name =
        some ((lookupQ s.states_ a.name).getD [] ++ [a]) := by
  cases hq : lookupQ s.states_ a.name with
  | none =>
    constructor
    · constructor
      · intro ⟨e, he⟩
        simp [queueAssertion, hq] at he
      · intro ⟨q, hq2, _⟩
        cases hq2
    · intro s2 h2
      simp only [queueAssertion, hq, Except.ok.injEq] at h2
      subst h2
      simpa using lookupQ_append_of_none hq [a]
  | some q =>
    by_cases hc : q.any conflicting = true
    · constructor
      · constructor
        · intro _
          refine ⟨q, rfl, ?_⟩
          rcases List.any_eq_true.mp hc with ⟨b, hb, hconf⟩
          exact ⟨b, hb, of_decide_eq_true hconf⟩
        · intro _
          exact ⟨"state " ++ a.name ++ " is already asserted or pending",
            by simp [queueAssertion, hq, hc]⟩
      · intro s2 h2
        simp [queueAssertion, hq, hc] at h2
    · constructor
      · constructor
        · intro ⟨e, he⟩
          simp [queueAssertion, hq, hc] at he
        · intro ⟨q2, hq2, b, hb, hdisp⟩
          cases hq2
          have hcf : conflicting b = true := decide_eq_true hdisp
          have : q.any conflicting = true := List.any_eq_true.mpr ⟨b, hb, hcf⟩
          exact absurd this hc
      · intro s2 h2
        simp only [queueAssertion, hq, hc, if_false, Bool.false_eq_true,
          Except.ok.injEq] at h2
        subst h2
        simpa using lookupQ_setQ_self hq (q ++ [a])

/-- Claim C2 witness: queueing into an empty registry succeeds and puts
the assertion at the tail of a fresh queue. -/
theorem c2_queueAssertion_conflict_witness :
    lookupQ
      (ClientStateAssertions.mk
        [("s", [ClientStateAssertion.mkFresh 1 "s" 7])]).states_
      (ClientStateAssertion.mkFresh 1 "s" 7).name =
      some ((lookupQ (ClientStateAssertions.mk []).states_
        (ClientStateAssertion.mkFresh 1 "s" 7).name).getD []
        ++ [ClientStateAssertion.mkFresh 1 "s" 7]) :=
  (c2_queueAssertion_conflict (ClientStateAssertions.mk [])
    (ClientStateAssertion.mkFresh 1 "s" 7)).2
    (ClientStateAssertions.mk [("s", [ClientStateAssertion.mkFresh 1 "s" 7])])
    rfl

/-- Claim C8: `isStateAsserted(name)` is true exactly when `name`'s
queue exists, is non-empty and its head has disposition `Asserted`;
`isFront(a)` is true exactly when `a` (by pointer identity) is the head
of the queue stored under `a`'s name. -/
theorem c8_isFront_isStateAsserted (s : ClientStateAssertions)
    (name : String) (a : ClientStateAssertion) :
    (isStateAsserted s name = true ↔
      ∃ q, lookupQ s.states_ name = some q ∧
        ∃ front, q.head? = some front ∧ front.disposition = .Asserted) ∧
    (isFront s a = true ↔
      ∃ q, lookupQ s.states_ a.name = some q ∧
        ∃ front, q.head? = some front ∧ front.id = a.id) := by
  constructor
  · cases hq : lookupQ s.states_ name with
    | none =>
      simp only [isStateAsserted, hq]
      constructor
      · intro h
        cases h
      · intro ⟨q, hq2, _⟩
        cases hq2
    | some q =>
      cases q with
      | nil =>
        simp only [isStateAsserted, hq]
        constructor
        · intro h
          cases h
        · intro ⟨q2, hq2, front, hf, _⟩
          cases hq2
          cases hf
      | cons front rest =>
        simp only [isStateAsserted, hq, decide_eq_true_eq]
        constructor
        · intro h
          exact ⟨front :: rest, rfl, front, rfl, h⟩
        · intro ⟨q2, hq2, f2, hf2, hd2⟩
          cases hq2
          cases hf2
          exact hd2
  · cases hq : lookupQ s.states_ a.name with
    | none =>
      simp only [isFront, hq]
      constructor
      · intro h
        cases h
      · intro ⟨q, hq2, _⟩
        cases hq2
    | some q =>
      cases q with
      | nil =>
        simp only [isFront, hq]
        constructor
        · intro h
          cases h
        · intro ⟨q2, hq2, front, hf, _⟩
          cases hq2
          cases hf
      | cons front rest =>
        simp only [isFront, hq, decide_eq_true_eq]
        constructor
        · intro h
          exact ⟨front :: rest, rfl, front, rfl, h⟩
        · intro ⟨q2, hq2, f2, hf2, hd2⟩
          cases hq2
          cases hf2
          exact hd2

/-- Claim C8 witness: in a registry whose queue for "s" holds an
`Asserted` head with id 2, `isStateAsserted` holds. -/
theorem c8_isFront_isStateAsserted_witness :
    isStateAsserted (ClientStateAssertions.mk [("s", [sampleAsserted])]) "s"
      = true :=
  (c8_isFront_isStateAsserted
    (ClientStateAssertions.mk [("s", [sampleAsserted])]) "s"
    sampleAsserted).1.mpr ⟨[sampleAsserted], rfl, sampleAsserted, rfl, rfl⟩

/-- Claim C3: `removeAssertion(a)`, when `a` sits somewhere in its
name's queue (whose entries carry that name), removes it at whatever
position it occupies: the name's queue becomes `removeFirstById q a.id`
(erasure of `a` wherever it sits); if that leaves the queue empty the
name's entry is deleted from the registry; otherwise the queue shrinks
to the remaining assertions, and when the new head's disposition is
`Asserted` its deferred `enterPayload` is broadcast exactly once and
`isFront` of the new head becomes true (with no broadcast otherwise). -/
theorem c3_removeAssertion_spec (s : ClientStateAssertions)
    (a : ClientStateAssertion) (q : List ClientStateAssertion)
    (hq : lookupQ s.states_ a.name = some q)
    (hmem : ∃ e ∈ q, e.id = a.id)
    (hnames : ∀ e ∈ q, e.name = a.name) :
    (removeAssertion s a).2.2 = true ∧
    (removeFirstById q a.id = [] →
      lookupQ (removeAssertion s a).1.states_ a.name = none) ∧
    ∀ front rest, removeFirstById q a.id = front :: rest →
      lookupQ (removeAssertion s a).1.states_ a.name = some (front :: rest) ∧
      (front.disposition = .Asserted →
        (removeAssertion s a).2.1 = [front.enterPayload] ∧
        isFront (removeAssertion s a).1 front = true) ∧
      (front.disposition ≠ .Asserted → (removeAssertion s a).2.1 = []) := by
  have hany : q.any (fun e => decide (e.id = a.id)) = true := by
    rcases hmem with ⟨e, he, hid⟩
    exact List.any_eq_true.mpr ⟨e, he, decide_eq_true hid⟩
  cases hrm : removeFirstById q a.id with
  | nil =>
    refine ⟨?_, ?_, ?_⟩
    · simp [removeAssertion, hq, hany, hrm]
    · intro _
      simp [removeAssertion, hq, hany, hrm, lookupQ_eraseQ_self]
    · intro front rest hfr
      cases hfr
  | cons f rest0 =>
    refine ⟨?_, ?_, ?_⟩
    · simp [removeAssertion, hq, hany, hrm]
    · intro hnil
      cases hnil
    · intro front rest hfr
      injection hfr with h1 h2
      subst h1
      subst h2
      have hres : (removeAssertion s a).1.states_ =
          setQ s.states_ a.name (f :: rest0) := by
        simp [removeAssertion, hq, hany, hrm]
      have hlook : lookupQ (removeAssertion s a).1.states_ a.name =
          some (f :: rest0) := by
        rw [hres]
        exact lookupQ_setQ_self hq (f :: rest0)
      have hfname : f.name = a.name :=
        hnames f (mem_removeFirstById (hrm ▸ List.mem_cons_self _ _))
      refine ⟨hlook, ?_, ?_⟩
      · intro hdisp
        constructor
        · simp [removeAssertion, hq, hany, hrm, hdisp]
        · have hlf : lookupQ (removeAssertion s a).1.states_ f.name =
              some (f :: rest0) := by
            rw [hfname]
            exact hlook
          simp [isFront, hlf]
      · intro hdisp
        simp [removeAssertion, hq, hany, hrm, hdisp]

/-- Claim C3 witness: removing the leaving holder promotes the
already-`Asserted` successor — its payload is broadcast exactly once
and it becomes the front. -/
theorem c3_removeAssertion_spec_witness :
    (removeAssertion
      (ClientStateAssertions.mk [("s", [sampleLeaving, sampleAsserted])])
      sampleLeaving).2.1 = [sampleAsserted.enterPayload] ∧
    isFront
      (removeAssertion
        (ClientStateAssertions.mk [("s", [sampleLeaving, sampleAsserted])])
        sampleLeaving).1 sampleAsserted = true :=
  ((c3_removeAssertion_spec
    (ClientStateAssertions.mk [("s", [sampleLeaving, sampleAsserted])])
    sampleLeaving [sampleLeaving, sampleAsserted] rfl
    ⟨sampleLeaving, by decide, rfl⟩ (by decide)).2.2
    sampleAsserted [] rfl).2.1 rfl

/-- The tail of a mapped queue is the mapped tail. -/
theorem tail_map_eq (f : ClientStateAssertion → ClientStateAssertion)
    (q : List ClientStateAssertion) : (q.map f).tail = q.tail.map f := by
  cases q <;> rfl

/-- The per-queue invariant: the queue is non-empty (an emptied queue
is deleted from the map) and no assertion beyond the head is in
`Asserted` disposition. -/
def queueOk (q : List ClientStateAssertion) : Prop :=
  q ≠ [] ∧ ∀ x ∈ q.tail, x.disposition ≠ .Asserted

/-- The registry invariant: every queue stored in the map satisfies
`queueOk`. -/
def RegInv (s : ClientStateAssertions) : Prop :=
  ∀ p ∈ s.states_, queueOk p.2

/-- The empty registry satisfies the invariant. -/
theorem regInv_empty : RegInv ⟨[]⟩ := by
  intro p hp
  cases hp

/-- One registry operation preserves the invariant. -/
theorem applyStateOp_regInv {s : ClientStateAssertions} (op : StateOp)
    (h : RegInv s) : RegInv (applyStateOp s op) := by
  cases op with
  | queue i name payload =>
    simp only [applyStateOp]
    cases hq : lookupQ s.states_ (ClientStateAssertion.mkFresh i name payload).name with
    | none =>
      simp only [queueAssertion, hq]
      intro p hp
      rcases List.mem_append.mp hp with h1 | h1
      · exact h p h1
      · rcases List.mem_singleton.mp h1 with rfl
        exact ⟨by simp, by simp⟩
    | some q =>
      by_cases hc : q.any conflicting = true
      · simp only [queueAssertion, hq, hc, if_true]
        exact h
      · simp only [queueAssertion, hq, hc, if_false, Bool.false_eq_true]
        intro p hp
        rcases mem_setQ hp with h1 | h1
        · exact h p h1
        · subst h1
          refine ⟨by simp, ?_⟩
          intro x hx
          have hx2 : x ∈ q ++ [ClientStateAssertion.mkFresh i name payload] :=
            List.mem_of_mem_tail hx
          rcases List.mem_append.mp hx2 with h2 | h2
          · have hcf : q.any conflicting = false := by simpa using hc
            have h3 := List.any_eq_false.mp hcf x h2
            simp only [conflicting, decide_eq_true_eq] at h3
            intro hxd
            exact h3 (Or.inl hxd)
          · rcases List.mem_singleton.mp h2 with rfl
            simp [ClientStateAssertion.mkFresh]
  | removeA i name =>
    simp only [applyStateOp]
    cases hq : lookupQ s.states_
        ({ id := i, name := name, disposition := .Done,
           enterPayload := 0 } : ClientStateAssertion).name with
    | none =>
      simp only [removeAssertion, hq]
      exact h
    | some q =>
      by_cases hany : q.any (fun e => decide (e.id =
          ({ id := i, name := name, disposition := .Done,
             enterPayload := 0 } : ClientStateAssertion).id)) = true
      · have hqok : queueOk q := h _ (lookupQ_mem hq)
        cases hrm : removeFirstById q i with
        | nil =>
          simp only [removeAssertion, hq, hany, if_true, hrm]
          intro p hp
          exact h p (mem_eraseQ hp)
        | cons f rest0 =>
          simp only [removeAssertion, hq, hany, if_true, hrm]
          intro p hp
          rcases mem_setQ hp with h1 | h1
          · exact h p h1
          · subst h1
            refine ⟨by simp, ?_⟩
            intro x hx
            have hx2 : x ∈ (removeFirstById q i).tail := by
              rw [hrm]
              exact hx
            exact hqok.2 x (tail_removeFirstById hx2)
      · simp only [removeAssertion, hq, hany]
        simpa using h
  | assertA name =>
    simp only [applyStateOp, assertFront]
    cases hq : lookupQ s.states_ name with
    | none => exact h
    | some q =>
      cases q with
      | nil => exact h
      | cons front rest =>
        have hqok : queueOk (front :: rest) := h _ (lookupQ_mem hq)
        by_cases hd : front.disposition = .PendingEnter
        · simp only [hd, if_true]
          intro p hp
          rcases mem_setQ hp with h1 | h1
          · exact h p h1
          · subst h1
            refine ⟨by simp, ?_⟩
            intro x hx
            exact hqok.2 x hx
        · simp only [hd, if_false]
          exact h
  | leaveA i name =>
    simp only [applyStateOp, markPendingLeave]
    cases hq : lookupQ s.states_ name with
    | none => exact h
    | some q =>
      have hqok : queueOk q := h _ (lookupQ_mem hq)
      intro p hp
      rcases mem_setQ hp with h1 | h1
      · exact h p h1
      · subst h1
        refine ⟨by simpa using hqok.1, ?_⟩
        intro x hx
        rw [tail_map_eq] at hx
        rcases List.mem_map.mp hx with ⟨b, hb, hbx⟩
        subst hbx
        by_cases hcond : b.id = i ∧ b.disposition = .Asserted
        · simp only [hcond, if_true]
          intro hcontra
          cases hcontra
        · simp only [hcond, if_false]
          exact hqok.2 b hb

/-- The invariant holds after any sequence of operations from the
empty registry. -/
theorem runStateOps_regInv (ops : List StateOp) : RegInv (runStateOps ops) := by
  suffices hgen : ∀ (s : ClientStateAssertions), RegInv s →
      RegInv (ops.foldl applyStateOp s) by
    exact hgen ⟨[]⟩ regInv_empty
  induction ops with
  | nil =>
    intro s hs
    exact hs
  | cons op rest ih =>
    intro s hs
    exact ih (applyStateOp s op) (applyStateOp_regInv op hs)

/-- Claim C1: after any sequence of registry operations (queueing a
freshly constructed assertion, removing an assertion, and the external
disposition transitions — in particular any sequence built from
`queueAssertion`/`removeAssertion` alone) starting from the empty
registry, every name present in the map has a non-empty queue, at most
one assertion of that queue is in `Asserted` disposition, and any
`Asserted` assertion is the queue head. -/
theorem c1_registry_invariant (ops : List StateOp) :
    ∀ p ∈ (runStateOps ops).states_,
      p.2 ≠ [] ∧
      p.2.countP (fun e => decide (e.disposition = .Asserted)) ≤ 1 ∧
      ∀ x ∈ p.2, x.disposition = .Asserted → p.2.head? = some x := by
  intro p hp
  have hqok : queueOk p.2 := runStateOps_regInv ops p hp
  obtain ⟨hne, htail⟩ := hqok
  cases hq2 : p.2 with
  | nil => exact absurd hq2 hne
  | cons hd tl =>
    rw [hq2] at htail
    have htl0 : tl.countP (fun e => decide (e.disposition = .Asserted)) = 0 := by
      apply List.countP_eq_zero.mpr
      intro x hx
      simpa using htail x hx
    refine ⟨by simp, ?_, ?_⟩
    · rw [List.countP_cons, htl0]
      by_cases hd2 : hd.disposition = .Asserted <;> simp [hd2]
    · intro x hx hxd
      rcases List.mem_cons.mp hx with h1 | h1
      · rw [h1]
        rfl
      · exact absurd hxd (htail x h1)

/-- Claim C1 witness: after queueing one fresh assertion, the single
resulting queue is non-empty, holds at most one `Asserted` assertion
and any `Asserted` one is the head. -/
theorem c1_registry_invariant_witness :
    ([ClientStateAssertion.mkFresh 1 "s" 7] ≠ [] ∧
      [ClientStateAssertion.mkFresh 1 "s" 7].countP
        (fun e => decide (e.disposition = .Asserted)) ≤ 1 ∧
      ∀ x ∈ [ClientStateAssertion.mkFresh 1 "s" 7],
        x.disposition = .Asserted →
        [ClientStateAssertion.mkFresh 1 "s" 7].head? = some x) :=
  c1_registry_invariant [StateOp.queue 1 "s" 7]
    ("s", [ClientStateAssertion.mkFresh 1 "s" 7]) (by decide)

end Watchman
